import Mathlib

/-!
Verification of the MRI segmentation data-preparation pipeline
(`code/datasets/segmentation/mri_dataset.py` and the k-means feature
extraction script) against its natural-language specification.

Images are modelled as nested lists of rationals (floats carry no rounding
concern here: the pipeline only casts, crops, pads, flips and divides by 1).
A channel-last slice is `List (List (List ℚ))` of shape `h × w × c`; a
channel-first torch tensor is the same type of shape `c × h × w`.
Label maps are `List (List ℤ)`.  Tensor dtypes are tracked by an explicit
tag, mirroring numpy/torch dtypes at the value-contract level.
-/

namespace MriDataset

/-- numpy/torch dtype tags, as far as the pipeline's contract mentions them. -/
inductive DType where
  | float32
  | int32
  | int64
  | uint8
  deriving DecidableEq, Repr

/-- `NUM_SLICES = 90`, the module-level slice-count constant. -/
def NUM_SLICES : ℕ := 90

/-- Modelled from the spec: `pad_and_or_crop` (imported in the source from
`code.utils.segmentation.transforms`, a repository module not present here)
acting on one axis: if the axis length is at least `s`, crop symmetrically
about the centre to `s`; otherwise pad with the zero-fill element `z`
symmetrically to `s`. -/
def fit1 {α : Type} (z : α) (s : ℕ) (xs : List α) : List α :=
  if s ≤ xs.length then
    (xs.drop ((xs.length - s) / 2)).take s
  else
    List.replicate ((s - xs.length) / 2) z ++ xs ++
      List.replicate (s - xs.length - (s - xs.length) / 2) z

/-- Modelled from the spec: `pad_and_or_crop` in `mode="centre"` on a 2-D
array (rows × columns), fitting the width of each row first and then the
height, padding with zero-fill rows built from `z`.  Channel/feature
dimensions, when the elements `α` are themselves channel vectors, are left
untouched. -/
def fit2 {α : Type} (z : α) (s : ℕ) (m : List (List α)) : List (List α) :=
  fit1 (List.replicate s z) s (m.map (fit1 z s))

theorem fit1_length {α : Type} (z : α) (s : ℕ) (xs : List α) :
    (fit1 z s xs).length = s := by
  unfold fit1
  split
  · rename_i h
    simp only [List.length_take, List.length_drop]
    omega
  · rename_i h
    simp only [List.length_append, List.length_replicate]
    omega

theorem fit1_of_length_eq {α : Type} (z : α) (s : ℕ) (xs : List α)
    (h : xs.length = s) : fit1 z s xs = xs := by
  unfold fit1
  rw [if_pos (by omega)]
  simp [h]

theorem fit2_length {α : Type} (z : α) (s : ℕ) (m : List (List α)) :
    (fit2 z s m).length = s :=
  fit1_length _ _ _

theorem fit1_mem {α : Type} (z : α) (s : ℕ) (xs : List α) {x : α}
    (hx : x ∈ fit1 z s xs) : x = z ∨ x ∈ xs := by
  unfold fit1 at hx
  split at hx
  · exact Or.inr (List.mem_of_mem_drop (List.mem_of_mem_take hx))
  · rcases List.mem_append.mp hx with h | h
    · rcases List.mem_append.mp h with h | h
      · exact Or.inl (List.eq_of_mem_replicate h)
      · exact Or.inr h
    · exact Or.inl (List.eq_of_mem_replicate h)

theorem fit2_row_length {α : Type} (z : α) (s : ℕ) (m : List (List α))
    {row : List α} (hrow : row ∈ fit2 z s m) : row.length = s := by
  rcases fit1_mem _ _ _ hrow with h | h
  · simp [h]
  · rcases List.mem_map.mp h with ⟨r, _, rfl⟩
    exact fit1_length _ _ _

theorem fit2_of_square {α : Type} (z : α) (s : ℕ) (m : List (List α))
    (hh : m.length = s) (hw : ∀ row ∈ m, row.length = s) :
    fit2 z s m = m := by
  unfold fit2
  have hmap : m.map (fit1 z s) = m := by
    conv_rhs => rw [← List.map_id m]
    apply List.map_congr_left
    intro row hrow
    exact fit1_of_length_eq _ _ _ (hw row hrow)
  rw [hmap]
  exact fit1_of_length_eq _ _ _ hh

theorem fit2_idem {α : Type} (z : α) (s : ℕ) (m : List (List α)) :
    fit2 z s (fit2 z s m) = fit2 z s m :=
  fit2_of_square _ _ _ (fit2_length _ _ _) (fun _ h => fit2_row_length _ _ _ h)

theorem fit2_mem {α : Type} (z : α) (s : ℕ) (m : List (List α)) {x : α}
    {row : List α} (hrow : row ∈ fit2 z s m) (hx : x ∈ row) :
    x = z ∨ ∃ r ∈ m, x ∈ r := by
  rcases fit1_mem _ _ _ hrow with h | h
  · exact Or.inl (List.eq_of_mem_replicate (h ▸ hx))
  · rcases List.mem_map.mp h with ⟨r, hr, rfl⟩
    rcases fit1_mem _ _ _ hx with h' | h'
    · exact Or.inl h'
    · exact Or.inr ⟨r, hr, h'⟩

/-- Number of channels of a channel-last `h × w × c` image, i.e. `shape[2]`
of the numpy array (read off the first pixel of the first row). -/
def channels (img : List (List (List ℚ))) : ℕ :=
  ((img.headD []).headD []).length

/-- The zero pixel used as fill when padding a channel-last image. -/
def zeroPix (img : List (List (List ℚ))) : List ℚ :=
  List.replicate (channels img) 0

/-- `torch.from_numpy(img).permute(2, 0, 1)`: turn a channel-last
`h × w × c` array into a channel-first `c × h × w` tensor. -/
def permute201 (img : List (List (List ℚ))) : List (List (List ℚ)) :=
  (List.range (channels img)).map (fun ch =>
    img.map (fun row => row.map (fun px => px.getD ch 0)))

/-- A test sample as returned by `_Mri._prepare_test`: channel-first image
tensor, label tensor and validity mask, each with its dtype tag. -/
structure TestSample where
  image : List (List (List ℚ))
  imageDType : DType
  label : List (List ℤ)
  labelDType : DType
  mask : List (List ℕ)
  maskDType : DType
  deriving DecidableEq, Repr

/-- `_Mri._prepare_test(index, img, label)` (the debug `sio.savemat`
side-effect is pure I/O and carries no data into the returned tuple):
casts the image to float32 and the label to int32, centre pad-or-crops
both to `input_sz`, divides the image by `1.` (`img.astype(np.float32) / 1.`),
permutes the image to channel-first, and builds the all-ones
`input_sz × input_sz` uint8 mask.  `torch.from_numpy` preserves the numpy
dtype, so the label tensor is int32. -/
def prepare_test (input_sz : ℕ) (img : List (List (List ℚ)))
    (label : List (List ℤ)) : TestSample :=
  let imgFit := fit2 (zeroPix img) input_sz img
  let labelFit := fit2 (0 : ℤ) input_sz label
  let imgScaled := imgFit.map (fun row => row.map (fun px => px.map (· / 1)))
  { image := permute201 imgScaled
    imageDType := DType.float32
    label := labelFit
    labelDType := DType.int32
    mask := List.replicate input_sz (List.replicate input_sz 1)
    maskDType := DType.uint8 }

/-- `torch.flip(t, dims=[2])` on a channel-first `c × h × w` tensor:
mirror along the width (innermost) axis. -/
def flipW (t : List (List (List ℚ))) : List (List (List ℚ)) :=
  t.map (fun plane => plane.map List.reverse)

/-- The affine matrix built in `_prepare_train`: `torch.zeros([2, 3])`
followed by `affine2_to_1[0, 0] = 1` and `affine2_to_1[1, 1] = 1`,
i.e. the 2×3 identity. -/
def affineInit : List (List ℚ) := [[1, 0, 0], [0, 1, 0]]

/-- `affine2_to_1[0, :] *= -1.`: negate the first row of a 2×3 matrix. -/
def negRow0 (m : List (List ℚ)) : List (List ℚ) :=
  match m with
  | [] => []
  | r0 :: rest => r0.map (fun x => -x) :: rest

/-- A training sample as returned by `_Mri._prepare_train`: two views, the
2×3 affine transform mapping view-2 coordinates to view-1 coordinates, and
the validity mask.  No label component is present. -/
structure TrainSample where
  view1 : List (List (List ℚ))
  view2 : List (List (List ℚ))
  affine : List (List ℚ)
  mask : List (List ℕ)
  deriving DecidableEq, Repr

/-- `_Mri._prepare_train(index, img, label)`: obtain `(img_torch, label,
mask)` from `_prepare_test` (the label is dropped), start `img2` as
`img_torch` and the affine as the identity, and when the draw
`np.random.rand() > self.flip_p` fires, flip `img2` along the width axis
and negate the affine's first row.  The random draw `u` is a parameter. -/
def prepare_train (input_sz : ℕ) (flip_p u : ℚ) (img : List (List (List ℚ)))
    (label : List (List ℤ)) : TrainSample :=
  let t := prepare_test input_sz img label
  if u > flip_p then
    { view1 := t.image, view2 := flipW t.image,
      affine := negRow0 affineInit, mask := t.mask }
  else
    { view1 := t.image, view2 := t.image,
      affine := affineInit, mask := t.mask }

/-- Python list indexing `xs[i]` for a possibly negative `i`: a negative
index counts from the end; out of `[-len, len)` raises `IndexError`
(modelled as `none`). -/
def pyGet {α : Type} (xs : List α) (i : ℤ) : Option α :=
  if 0 ≤ i then xs.get? i.toNat
  else if 0 ≤ i + xs.length then xs.get? (i + xs.length).toNat
  else none

/-- The index arithmetic of `_Mri.__getitem__`: `subject_idx = index //
NUM_SLICES`, `slice_idx = index % NUM_SLICES`, `subject_id =
self.files[subject_idx]` — Python floor division and modulo, and Python
list indexing on `files`. -/
def resolveIndex (files : List String) (index : ℤ) :
    Option (String × ℤ) :=
  match pyGet files (Int.fdiv index NUM_SLICES) with
  | some subject_id => some (subject_id, Int.fmod index NUM_SLICES)
  | none => none

/-- `_Mri.__len__`: `len(self.files) * NUM_SLICES`. -/
def datasetLen (files : List String) : ℕ :=
  files.length * NUM_SLICES

/-- The flat-index-to-(subject, slice) map on the in-range index space,
as a map between the canonical finite index sets. -/
def resolvePair (n : ℕ) (i : Fin (n * NUM_SLICES)) : Fin n × Fin NUM_SLICES :=
  (⟨i.val / NUM_SLICES, by
      have hi := i.isLt
      simp only [NUM_SLICES] at hi ⊢
      omega⟩,
   ⟨i.val % NUM_SLICES, Nat.mod_lt _ (by decide)⟩)

/-- Lookup in the `label_idx` dict built from `labelNameCount.csv`:
the dict maps the string form of a raw label code to its dense id. -/
def lookupLabel (table : List (String × ℤ)) (k : String) : Option ℤ :=
  (table.find? (fun p => p.1 = k)).map (fun p => p.2)

/-- The element-wise remap loop of `DiffSeg._load_data` on one row:
`label[i, j] = self.label_idx[str(label[i, j])]`; a raw code absent from
the dict raises `KeyError(str(code))`, modelled as `Except.error` carrying
the offending key. -/
def remapRow (table : List (String × ℤ)) : List ℤ → Except String (List ℤ)
  | [] => Except.ok []
  | v :: rest =>
    match lookupLabel table (toString v) with
    | some d => (remapRow table rest).map (fun tl => d :: tl)
    | none => Except.error (toString v)

/-- The full nested remap loop of `DiffSeg._load_data` over the 2-D label
map, row-major, failing on the first raw code absent from the table. -/
def remap (table : List (String × ℤ)) :
    List (List ℤ) → Except String (List (List ℤ))
  | [] => Except.ok []
  | row :: rest =>
    match remapRow table row with
    | Except.ok r => (remap table rest).map (fun tl => r :: tl)
    | Except.error e => Except.error e

/-- `DiffSeg._set_files`: when the split is `"all"`, the files are the
sorted glob matches (the glob result is an external filesystem input,
passed here as `globbed`); any other split raises
`ValueError("Invalid split name: {}".format(split))`. -/
def set_files (split : String) (globbed : List String) :
    Except String (List String) :=
  if split = "all" then
    Except.ok (globbed.mergeSort (fun a b => a ≤ b))
  else
    Except.error ("Invalid split name: " ++ split)

/-! ### Shared helper lemmas on `List.getD` -/

theorem getD_map {α β : Type} (g : α → β) (d : β) (d' : α) :
    ∀ (l : List α) (i : ℕ), i < l.length → (l.map g).getD i d = g (l.getD i d')
  | [], i, h => by simp at h
  | a :: l, 0, _ => rfl
  | a :: l, i + 1, h =>
    getD_map g d d' l i (by simp only [List.length_cons] at h; omega)

theorem getD_mem {α : Type} (d : α) :
    ∀ (l : List α) (i : ℕ), i < l.length → l.getD i d ∈ l
  | [], i, h => by simp at h
  | a :: l, 0, _ => List.mem_cons_self a l
  | a :: l, i + 1, h =>
    List.mem_cons_of_mem a
      (getD_mem d l i (by simp only [List.length_cons] at h; omega))

theorem getD_of_length_le {α : Type} (d : α) :
    ∀ (l : List α) (i : ℕ), l.length ≤ i → l.getD i d = d
  | [], i, _ => by cases i <;> rfl
  | a :: l, i + 1, h =>
    getD_of_length_le d l i (by simp only [List.length_cons] at h; omega)

theorem get?_eq_some_getD {α : Type} (d : α) :
    ∀ (l : List α) (i : ℕ), i < l.length → l.get? i = some (l.getD i d)
  | [], i, h => by simp at h
  | a :: l, 0, _ => rfl
  | a :: l, i + 1, h =>
    get?_eq_some_getD d l i (by simp only [List.length_cons] at h; omega)

theorem headD_mem {α : Type} (l : List α) (d : α) (h : l ≠ []) :
    l.headD d ∈ l := by
  cases l with
  | nil => exact absurd rfl h
  | cons a t => exact List.mem_cons_self a t

/-! ### Claim theorems -/

/-- **C1** In training mode, writing `u` for the drawn uniform value in
`[0, 1)`: when `u > flip_p` the second view is the first view mirrored
along the width axis and the affine transform is `[[-1,0,0],[0,1,0]]`
(the 2×3 identity with its first row negated); otherwise the second view
equals the first and the transform is the 2×3 identity `[[1,0,0],[0,1,0]]`.
The flip fires exactly on `u > flip_p`, and no other transform is ever
returned. -/
theorem train_flip_spec (input_sz : ℕ) (flip_p u : ℚ)
    (img : List (List (List ℚ))) (label : List (List ℤ))
    (hu0 : 0 ≤ u) (hu1 : u < 1) :
    prepare_train input_sz flip_p u img label =
      (if u > flip_p then
        { view1 := (prepare_test input_sz img label).image
          view2 := flipW (prepare_test input_sz img label).image
          affine := [[-1, 0, 0], [0, 1, 0]]
          mask := (prepare_test input_sz img label).mask }
      else
        { view1 := (prepare_test input_sz img label).image
          view2 := (prepare_test input_sz img label).image
          affine := [[1, 0, 0], [0, 1, 0]]
          mask := (prepare_test input_sz img label).mask })
    ∧ ((prepare_train input_sz flip_p u img label).affine = [[-1, 0, 0], [0, 1, 0]]
        ∨ (prepare_train input_sz flip_p u img label).affine = [[1, 0, 0], [0, 1, 0]]) := by
  have hneg : negRow0 affineInit = [[-1, 0, 0], [0, 1, 0]] := by
    simp [negRow0, affineInit]
  constructor
  · simp only [prepare_train]
    split
    · simp [hneg]
    · rfl
  · simp only [prepare_train]
    split
    · exact Or.inl hneg
    · exact Or.inr rfl

/-- Witness for `train_flip_spec` at `u = 3/4`, `flip_p = 1/2`. -/
theorem train_flip_spec_witness :
    prepare_train 1 (1/2) (3/4) [[[9]]] [[0]] =
      (if (3/4 : ℚ) > 1/2 then
        { view1 := (prepare_test 1 [[[9]]] [[0]]).image
          view2 := flipW (prepare_test 1 [[[9]]] [[0]]).image
          affine := [[-1, 0, 0], [0, 1, 0]]
          mask := (prepare_test 1 [[[9]]] [[0]]).mask }
      else
        { view1 := (prepare_test 1 [[[9]]] [[0]]).image
          view2 := (prepare_test 1 [[[9]]] [[0]]).image
          affine := [[1, 0, 0], [0, 1, 0]]
          mask := (prepare_test 1 [[[9]]] [[0]]).mask })
    ∧ ((prepare_train 1 (1/2) (3/4) [[[9]]] [[0]]).affine = [[-1, 0, 0], [0, 1, 0]]
        ∨ (prepare_train 1 (1/2) (3/4) [[[9]]] [[0]]).affine = [[1, 0, 0], [0, 1, 0]]) :=
  train_flip_spec 1 (1/2) (3/4) [[[9]]] [[0]] (by norm_num) (by norm_num)

/-- **C2** For identical raw inputs, `view1` of the training sample is
bit-identical to the image of the test pipeline, and does not depend on
the random draw (no randomness before the paired-view synthesis step).
The `TrainSample` structure carries no label component at all. -/
theorem train_view1_eq_test_image (input_sz : ℕ) (flip_p u u' : ℚ)
    (img : List (List (List ℚ))) (label : List (List ℤ)) :
    (prepare_train input_sz flip_p u img label).view1 =
        (prepare_test input_sz img label).image
    ∧ (prepare_train input_sz flip_p u img label).view1 =
        (prepare_train input_sz flip_p u' img label).view1 := by
  constructor
  · simp only [prepare_train]
    split <;> rfl
  · simp only [prepare_train]
    split <;> split <;> rfl

/-- **C5 (code bug)** The label tensor emitted by `_prepare_test` carries
dtype int32 (`label.astype(np.int32)` followed by the dtype-preserving
`torch.from_numpy`), contradicting the int64 dtype promised both by the
spec and by the function's own docstring. -/
theorem test_label_dtype_is_int32 (input_sz : ℕ) (img : List (List (List ℚ)))
    (label : List (List ℤ)) :
    (prepare_test input_sz img label).labelDType = DType.int32
    ∧ DType.int32 ≠ DType.int64 :=
  ⟨rfl, by decide⟩

/-- **C9** The training sample is independent of the label map: for any two
raw label maps that both remap successfully, the same raw image and the
same random draw produce identical `(view1, view2, affine, mask)`; the
mask is always the all-ones `input_sz × input_sz` tensor, of dtype uint8,
carrying no label information. -/
theorem train_sample_label_independent (table : List (String × ℤ))
    (input_sz : ℕ) (flip_p u : ℚ) (img : List (List (List ℚ)))
    (l1 l2 d1 d2 : List (List ℤ))
    (h1 : remap table l1 = Except.ok d1)
    (h2 : remap table l2 = Except.ok d2) :
    prepare_train input_sz flip_p u img d1 = prepare_train input_sz flip_p u img d2
    ∧ (prepare_train input_sz flip_p u img d1).mask =
        List.replicate input_sz (List.replicate input_sz 1)
    ∧ (prepare_test input_sz img d1).maskDType = DType.uint8 := by
  refine ⟨?_, ?_, rfl⟩
  · simp only [prepare_train]
    split <;> rfl
  · simp only [prepare_train]
    split <;> rfl

/-- Witness for `train_sample_label_independent` on two concrete label
maps that both remap under the table `[("0", 1)]`. -/
theorem train_sample_label_independent_witness :
    prepare_train 1 (1/2) 0 [[[1]]] [[1]] = prepare_train 1 (1/2) 0 [[[1]]] []
    ∧ (prepare_train 1 (1/2) 0 [[[1]]] [[1]]).mask =
        List.replicate 1 (List.replicate 1 1)
    ∧ (prepare_test 1 [[[1]]] [[1]]).maskDType = DType.uint8 :=
  train_sample_label_independent [("0", 1)] 1 (1/2) 0 [[[1]]] [[0]] [] [[1]] []
    rfl rfl

theorem pyGet_nonneg {α : Type} (xs : List α) (i : ℤ) (h : 0 ≤ i) :
    pyGet xs i = xs.get? i.toNat := by
  unfold pyGet
  rw [if_pos h]

/-- **C3** For every flat index in `[0, numSubjects * 90)`, `__getitem__`
resolves to subject `files[index // NUM_SLICES]` and local slice
`index % NUM_SLICES`, this mapping is a bijection onto the flat index
space, and `__len__` returns `numSubjects * 90`. -/
theorem flat_index_resolution (files : List String) (i : ℕ)
    (h : i < datasetLen files) :
    resolveIndex files (i : ℤ) =
      some (files.getD (i / NUM_SLICES) "", ((i % NUM_SLICES : ℕ) : ℤ))
    ∧ Function.Bijective (resolvePair files.length)
    ∧ datasetLen files = files.length * 90 := by
  refine ⟨?_, ⟨?_, ?_⟩, rfl⟩
  · have hn : i / NUM_SLICES < files.length := by
      simp only [datasetLen, NUM_SLICES] at h ⊢
      omega
    have hfd : Int.fdiv (i : ℤ) ((NUM_SLICES : ℕ) : ℤ) = ((i / NUM_SLICES : ℕ) : ℤ) := by
      rw [Int.fdiv_eq_ediv _ (by positivity)]
      simp only [NUM_SLICES]
      omega
    have hfm : Int.fmod (i : ℤ) ((NUM_SLICES : ℕ) : ℤ) = ((i % NUM_SLICES : ℕ) : ℤ) := by
      rw [Int.fmod_eq_emod _ (by positivity)]
      simp only [NUM_SLICES]
      omega
    unfold resolveIndex
    rw [hfd, pyGet_nonneg _ _ (Int.natCast_nonneg _), Int.toNat_natCast,
      get?_eq_some_getD "" files _ hn, hfm]
  · intro a b hab
    have h1 := congrArg (fun p => p.1.val) hab
    have h2 := congrArg (fun p => p.2.val) hab
    simp only [resolvePair] at h1 h2
    apply Fin.ext
    simp only [NUM_SLICES] at h1 h2
    omega
  · rintro ⟨⟨q, hq⟩, ⟨r, hr⟩⟩
    refine ⟨⟨q * NUM_SLICES + r, ?_⟩, ?_⟩
    · simp only [NUM_SLICES] at *
      omega
    · simp only [resolvePair, Prod.mk.injEq, Fin.mk.injEq]
      simp only [NUM_SLICES] at hr ⊢
      omega

/-- Witness for `flat_index_resolution`: two subjects, flat index 95. -/
theorem flat_index_resolution_witness :
    resolveIndex ["a", "b"] ((95 : ℕ) : ℤ) =
      some ((["a", "b"] : List String).getD (95 / NUM_SLICES) "",
        ((95 % NUM_SLICES : ℕ) : ℤ))
    ∧ Function.Bijective (resolvePair (["a", "b"] : List String).length)
    ∧ datasetLen ["a", "b"] = (["a", "b"] : List String).length * 90 :=
  flat_index_resolution ["a", "b"] 95 (by decide)

/-- **C4 (counterexample)** The claim that every negative flat index fails
is false on the code: with a single subject, flat index `-1` resolves via
Python floor division and negative list indexing to the last subject and
local slice 89, returning a sample. -/
theorem negative_index_returns_sample :
    (-1 : ℤ) < 0 ∧ resolveIndex ["a"] (-1) = some ("a", 89) := by
  exact ⟨by decide, rfl⟩

/-- **C4 (amended)** Sample access fails (with Python's `IndexError`,
modelled as `none`) if and only if the flat index lies outside
`[-length(), length())`; flat indices in `[-length(), 0)` are accepted
and wrap around Python-style rather than failing. -/
theorem index_error_iff (files : List String) (index : ℤ) :
    resolveIndex files index = none ↔
      index < -(datasetLen files : ℤ) ∨ (datasetLen files : ℤ) ≤ index := by
  have hpy : ∀ j : ℤ, pyGet files j = none ↔
      j < -(files.length : ℤ) ∨ (files.length : ℤ) ≤ j := by
    intro j
    unfold pyGet
    split
    · rename_i h0
      rw [List.get?_eq_none]
      omega
    · split
      · rename_i h0 h1
        rw [List.get?_eq_none]
        omega
      · rename_i h0 h1
        constructor
        · intro _
          omega
        · intro _
          rfl
  have key : resolveIndex files index = none ↔
      pyGet files (Int.fdiv index ((NUM_SLICES : ℕ) : ℤ)) = none := by
    unfold resolveIndex
    cases pyGet files (Int.fdiv index ((NUM_SLICES : ℕ) : ℤ)) <;> simp
  rw [key, hpy]
  have hfd : Int.fdiv index ((NUM_SLICES : ℕ) : ℤ) = index / 90 := by
    rw [Int.fdiv_eq_ediv _ (by positivity)]
    norm_num [NUM_SLICES]
  rw [hfd]
  simp only [datasetLen, NUM_SLICES]
  push_cast
  omega

theorem remapRow_ok_iff (table : List (String × ℤ)) (row : List ℤ) :
    (∃ r, remapRow table row = Except.ok r) ↔
      ∀ v ∈ row, (lookupLabel table (toString v)).isSome := by
  induction row with
  | nil =>
    constructor
    · intro _ v hv
      exact absurd hv (List.not_mem_nil v)
    · intro _
      exact ⟨[], rfl⟩
  | cons v rest ih =>
    constructor
    · rintro ⟨r, hr⟩
      unfold remapRow at hr
      cases hl : lookupLabel table (toString v) with
      | none =>
        rw [hl] at hr
        exact absurd hr (by simp)
      | some d =>
        rw [hl] at hr
        intro x hx
        rcases List.mem_cons.mp hx with rfl | hx
        · rw [hl]
          rfl
        · cases hrest : remapRow table rest with
          | ok r' => exact (ih.mp ⟨r', hrest⟩) x hx
          | error e =>
            rw [hrest] at hr
            exact absurd hr (by simp [Except.map])
    · intro hall
      have hv := hall v (List.mem_cons_self v rest)
      cases hl : lookupLabel table (toString v) with
      | none =>
        rw [hl] at hv
        exact absurd hv (by simp)
      | some d =>
        rcases ih.mpr (fun x hx => hall x (List.mem_cons_of_mem _ hx)) with ⟨r', hr'⟩
        refine ⟨d :: r', ?_⟩
        unfold remapRow
        rw [hl, hr']
        rfl

theorem remapRow_error_spec (table : List (String × ℤ)) :
    ∀ (row : List ℤ) (e : String), remapRow table row = Except.error e →
      lookupLabel table e = none ∧ ∃ v ∈ row, toString v = e := by
  intro row
  induction row with
  | nil =>
    intro e h
    exact absurd h (by simp [remapRow])
  | cons v rest ih =>
    intro e h
    unfold remapRow at h
    cases hl : lookupLabel table (toString v) with
    | none =>
      rw [hl] at h
      have he : toString v = e := by simpa using h
      exact ⟨he ▸ hl, v, List.mem_cons_self v rest, he⟩
    | some d =>
      rw [hl] at h
      cases hrest : remapRow table rest with
      | ok r =>
        rw [hrest] at h
        exact absurd h (by simp [Except.map])
      | error e' =>
        rw [hrest] at h
        have he : e' = e := by simpa [Except.map] using h
        obtain ⟨h1, v', hv', he'⟩ := ih e (he ▸ hrest)
        exact ⟨h1, v', List.mem_cons_of_mem _ hv', he'⟩

theorem remap_ok_iff (table : List (String × ℤ)) (m : List (List ℤ)) :
    (∃ d, remap table m = Except.ok d) ↔
      ∀ row ∈ m, ∀ v ∈ row, (lookupLabel table (toString v)).isSome := by
  induction m with
  | nil =>
    constructor
    · intro _ row hrow
      exact absurd hrow (List.not_mem_nil row)
    · intro _
      exact ⟨[], rfl⟩
  | cons row rest ih =>
    constructor
    · rintro ⟨d, hd⟩
      unfold remap at hd
      cases hrow : remapRow table row with
      | ok r =>
        rw [hrow] at hd
        intro row' hrow'
        rcases List.mem_cons.mp hrow' with rfl | hrow'
        · exact (remapRow_ok_iff table row').mp ⟨r, hrow⟩
        · cases hrest : remap table rest with
          | ok d' => exact (ih.mp ⟨d', hrest⟩) row' hrow'
          | error e =>
            rw [hrest] at hd
            exact absurd hd (by simp [Except.map])
      | error e =>
        rw [hrow] at hd
        exact absurd hd (by simp)
    · intro hall
      rcases (remapRow_ok_iff table row).mpr
          (hall row (List.mem_cons_self row rest)) with ⟨r, hr⟩
      rcases ih.mpr (fun row' h' v hv => hall row' (List.mem_cons_of_mem _ h') v hv)
        with ⟨d', hd'⟩
      refine ⟨r :: d', ?_⟩
      unfold remap
      rw [hr, hd']
      rfl

theorem remap_error_spec (table : List (String × ℤ)) :
    ∀ (m : List (List ℤ)) (e : String), remap table m = Except.error e →
      lookupLabel table e = none ∧ ∃ row ∈ m, ∃ v ∈ row, toString v = e := by
  intro m
  induction m with
  | nil =>
    intro e h
    exact absurd h (by simp [remap])
  | cons row rest ih =>
    intro e h
    unfold remap at h
    cases hrow : remapRow table row with
    | ok r =>
      rw [hrow] at h
      cases hrest : remap table rest with
      | ok d' =>
        rw [hrest] at h
        exact absurd h (by simp [Except.map])
      | error e' =>
        rw [hrest] at h
        have he : e' = e := by simpa [Except.map] using h
        obtain ⟨h1, row', hrow', hv⟩ := ih e (he ▸ hrest)
        exact ⟨h1, row', List.mem_cons_of_mem _ hrow', hv⟩
    | error e' =>
      rw [hrow] at h
      have he : e' = e := by simpa using h
      obtain ⟨h1, v, hv, hve⟩ := remapRow_error_spec table row e (he ▸ hrow)
      exact ⟨h1, row, List.mem_cons_self row rest, v, hv, hve⟩

/-- **C6** Label remapping succeeds exactly when every raw value of the
label map is a key of the table (so no unmapped code is ever coerced to a
default class), and a failure carries precisely the string form of an
offending raw code that is absent from the table — mirroring the
`KeyError` raised by `self.label_idx[str(label[i, j])]`. -/
theorem label_remap_spec (table : List (String × ℤ)) (m : List (List ℤ)) :
    ((∃ d, remap table m = Except.ok d) ↔
      ∀ row ∈ m, ∀ v ∈ row, (lookupLabel table (toString v)).isSome)
    ∧ (∀ e, remap table m = Except.error e →
        lookupLabel table e = none ∧ ∃ row ∈ m, ∃ v ∈ row, toString v = e) :=
  ⟨remap_ok_iff table m, fun e h => remap_error_spec table m e h⟩

/-- Witness for `label_remap_spec`: the table `[("0", 1)]` covers the
label map `[[0]]`, so remapping succeeds. -/
theorem label_remap_spec_witness :
    ∃ d, remap [("0", 1)] [[0]] = Except.ok d :=
  (label_remap_spec [("0", 1)] [[0]]).1.mpr (by decide)

/-- **C10** `_set_files` returns the sorted list of glob matches when the
split name is `"all"` (a permutation of the matches, sorted
lexicographically), and raises `ValueError("Invalid split name: ...")` for
every other split name instead of returning a subject list. -/
theorem split_discovery_spec (split : String) (globbed : List String) :
    (split = "all" →
      set_files split globbed =
          Except.ok (globbed.mergeSort (fun a b => a ≤ b))
        ∧ (globbed.mergeSort (fun a b => a ≤ b)).Perm globbed
        ∧ (globbed.mergeSort (fun a b => a ≤ b)).Pairwise
            (fun a b : String => a ≤ b))
    ∧ (split ≠ "all" →
        set_files split globbed = Except.error ("Invalid split name: " ++ split)) := by
  constructor
  · intro h
    refine ⟨by simp [set_files, h], List.mergeSort_perm _ _, ?_⟩
    have hp := @List.sorted_mergeSort String (fun a b : String => a ≤ b)
      (fun a b c : String => by
        simp only [decide_eq_true_eq]
        exact le_trans)
      (fun a b : String => by
        simp only [Bool.or_eq_true, decide_eq_true_eq]
        exact le_total a b)
      globbed
    exact hp.imp (by simp only [decide_eq_true_eq, imp_self, implies_true])
  · intro h
    simp [set_files, h]

/-- Witness for `split_discovery_spec` on the split `"all"` and on the
unrecognized split `"train"`. -/
theorem split_discovery_spec_witness :
    set_files "all" ["b", "a"] =
        Except.ok ((["b", "a"] : List String).mergeSort (fun a b => a ≤ b))
    ∧ set_files "train" [] = Except.error ("Invalid split name: " ++ "train") :=
  ⟨((split_discovery_spec "all" ["b", "a"]).1 rfl).1,
    (split_discovery_spec "train" []).2 (by decide)⟩

theorem getD_range (c i d : ℕ) (h : i < c) : (List.range c).getD i d = i := by
  rw [List.getD_eq_getElem?_getD, List.getElem?_range h]
  rfl

/-- **C7** The centre pad-and-crop normalization: output is always exactly
`s × s` whatever the input's spatial dimensions; it is idempotent; it is
the identity on an input already of spatial shape `s × s`; elements
(channel vectors, when present) are passed through untouched — every
output element is either the zero-fill element or an element of the
input; and `_prepare_test` applies this very operation with the same
target size to both the image and the label map. -/
theorem geometric_normalizer_spec {α : Type} (z : α) (s : ℕ) :
    (∀ m : List (List α), (fit2 z s m).length = s ∧
        ∀ row ∈ fit2 z s m, row.length = s)
    ∧ (∀ m : List (List α), fit2 z s (fit2 z s m) = fit2 z s m)
    ∧ (∀ m : List (List α), m.length = s → (∀ row ∈ m, row.length = s) →
        fit2 z s m = m)
    ∧ (∀ (m : List (List α)) (row : List α) (x : α), row ∈ fit2 z s m →
        x ∈ row → x = z ∨ ∃ r ∈ m, x ∈ r)
    ∧ (∀ (input_sz : ℕ) (img : List (List (List ℚ))) (label : List (List ℤ)),
        (prepare_test input_sz img label).label = fit2 (0 : ℤ) input_sz label
        ∧ (prepare_test input_sz img label).image =
            permute201 ((fit2 (zeroPix img) input_sz img).map
              (fun row => row.map (fun q => q.map (· / 1))))) :=
  ⟨fun m => ⟨fit2_length z s m, fun _ h => fit2_row_length z s m h⟩,
    fun m => fit2_idem z s m,
    fun m hh hw => fit2_of_square z s m hh hw,
    fun m _ _ hrow hx => fit2_mem z s m hrow hx,
    fun _ _ _ => ⟨rfl, rfl⟩⟩

/-- Witness for `geometric_normalizer_spec`: on an input already of shape
`1 × 1`, the normalizer with target size 1 is the identity. -/
theorem geometric_normalizer_spec_witness :
    fit2 (0 : ℚ) 1 [[5]] = [[5]] :=
  (geometric_normalizer_spec (0 : ℚ) 1).2.2.1 [[5]] (by decide) (by decide)

/-- **C8** `_prepare_test` returns the image as a channel-first float32
tensor whose channel count equals the input's; the scaling step
(`img.astype(np.float32) / 1.`) is a type boundary, not a rescale: every
output pixel value equals the corresponding pixel of the centre
pad-or-cropped input, and values in `[0, 1]` stay in `[0, 1]`. -/
theorem test_image_pointwise_spec (input_sz : ℕ) (img : List (List (List ℚ)))
    (label : List (List ℤ)) (hsz : 0 < input_sz)
    (wf : ∀ row ∈ img, ∀ px ∈ row, px.length = channels img) :
    (prepare_test input_sz img label).imageDType = DType.float32
    ∧ (prepare_test input_sz img label).image.length = channels img
    ∧ (∀ ch, ch < channels img → ∀ i, i < input_sz → ∀ j, j < input_sz →
        (((prepare_test input_sz img label).image.getD ch []).getD i []).getD j 0 =
          (((fit2 (zeroPix img) input_sz img).getD i []).getD j []).getD ch 0)
    ∧ ((∀ row ∈ img, ∀ px ∈ row, ∀ x ∈ px, 0 ≤ x ∧ x ≤ 1) →
        ∀ plane ∈ (prepare_test input_sz img label).image,
          ∀ row ∈ plane, ∀ x ∈ row, 0 ≤ x ∧ x ≤ 1) := by
  have hFlen : (fit2 (zeroPix img) input_sz img).length = input_sz :=
    fit2_length _ _ _
  have hFrows : ∀ row ∈ fit2 (zeroPix img) input_sz img, row.length = input_sz :=
    fun _ h => fit2_row_length _ _ _ h
  have hpxlen : ∀ row ∈ fit2 (zeroPix img) input_sz img, ∀ px ∈ row,
      px.length = channels img := by
    intro row hrow px hpx
    rcases fit2_mem _ _ _ hrow hpx with h | ⟨r, hr, hpr⟩
    · rw [h, zeroPix, List.length_replicate]
    · exact wf r hr px hpr
  have himg : (prepare_test input_sz img label).image =
      permute201 ((fit2 (zeroPix img) input_sz img).map
        (fun row => row.map (fun q => q.map (· / 1)))) := rfl
  have hchS : channels ((fit2 (zeroPix img) input_sz img).map
      (fun row => row.map (fun q => q.map (· / 1)))) = channels img := by
    have h1 : fit2 (zeroPix img) input_sz img ≠ [] := by
      intro hnil
      rw [hnil] at hFlen
      simp only [List.length_nil] at hFlen
      omega
    obtain ⟨r, F', hFeq⟩ := List.exists_cons_of_ne_nil h1
    have hrmem : r ∈ fit2 (zeroPix img) input_sz img := by
      rw [hFeq]
      exact List.mem_cons_self _ _
    have hrlen : r.length = input_sz := hFrows r hrmem
    have h2 : r ≠ [] := by
      intro hnil
      rw [hnil] at hrlen
      simp only [List.length_nil] at hrlen
      omega
    obtain ⟨px, r', hreq⟩ := List.exists_cons_of_ne_nil h2
    have hpxmem : px ∈ r := by
      rw [hreq]
      exact List.mem_cons_self _ _
    have hpl : px.length = channels img := hpxlen r hrmem px hpxmem
    have hstep : channels (((px :: r') :: F').map
        (fun row => row.map (fun q => q.map (· / 1)))) =
        (px.map (· / 1)).length := rfl
    rw [hFeq, hreq, hstep, List.length_map]
    exact hpl
  refine ⟨rfl, ?_, ?_, ?_⟩
  · rw [himg]
    unfold permute201
    rw [List.length_map, List.length_range, hchS]
  · intro ch hch i hi j hj
    have hFrow_mem : (fit2 (zeroPix img) input_sz img).getD i [] ∈
        fit2 (zeroPix img) input_sz img :=
      getD_mem [] _ i (by rw [hFlen]; exact hi)
    have hFrowlen : ((fit2 (zeroPix img) input_sz img).getD i []).length = input_sz :=
      hFrows _ hFrow_mem
    have hpx'len : (((fit2 (zeroPix img) input_sz img).getD i []).getD j []).length =
        channels img :=
      hpxlen _ hFrow_mem _ (getD_mem [] _ j (by rw [hFrowlen]; exact hj))
    rw [himg]
    unfold permute201
    rw [hchS]
    rw [getD_map _ [] 0 (List.range (channels img)) ch
      (by rw [List.length_range]; exact hch)]
    rw [getD_range _ _ _ hch]
    simp only [List.map_map]
    rw [getD_map _ [] [] (fit2 (zeroPix img) input_sz img) i (by rw [hFlen]; exact hi)]
    simp only [Function.comp, List.map_map]
    rw [getD_map _ 0 [] ((fit2 (zeroPix img) input_sz img).getD i []) j
      (by rw [hFrowlen]; exact hj)]
    simp only [Function.comp]
    rw [getD_map _ 0 0 (((fit2 (zeroPix img) input_sz img).getD i []).getD j []) ch
      (by rw [hpx'len]; exact hch)]
    rw [div_one]
  · intro hb plane hplane row hrow x hx
    rw [himg] at hplane
    unfold permute201 at hplane
    rcases List.mem_map.mp hplane with ⟨ch, _, rfl⟩
    rcases List.mem_map.mp hrow with ⟨Srow, hSrow, rfl⟩
    rcases List.mem_map.mp hx with ⟨px, hpx, rfl⟩
    rcases List.mem_map.mp hSrow with ⟨Frow, hFrow, rfl⟩
    rcases List.mem_map.mp hpx with ⟨px', hpx', rfl⟩
    by_cases hc : ch < (px'.map (· / 1)).length
    · have hmem := getD_mem 0 _ ch hc
      rcases List.mem_map.mp hmem with ⟨y, hy, hyx⟩
      have hy01 : 0 ≤ y ∧ y ≤ 1 := by
        rcases fit2_mem _ _ _ hFrow hpx' with hz | ⟨r, hr, hpr⟩
        · have hy0 : y = 0 := by
            apply List.eq_of_mem_replicate
            have := hz ▸ hy
            simpa [zeroPix] using this
          rw [hy0]
          norm_num
        · exact hb r hr px' hpr y hy
      rw [← hyx]
      constructor
      · simpa [div_one] using hy01.1
      · simpa [div_one] using hy01.2
    · have h0 : (px'.map (· / 1)).getD ch 0 = 0 :=
        getD_of_length_le 0 _ ch (by omega)
      rw [h0]
      norm_num

/-- Witness for `test_image_pointwise_spec` on a 1×1 single-channel slice. -/
theorem test_image_pointwise_spec_witness :
    (prepare_test 1 [[[(1 : ℚ)/2]]] [[0]]).imageDType = DType.float32
    ∧ (prepare_test 1 [[[(1 : ℚ)/2]]] [[0]]).image.length = channels [[[(1 : ℚ)/2]]]
    ∧ (∀ ch, ch < channels [[[(1 : ℚ)/2]]] → ∀ i, i < 1 → ∀ j, j < 1 →
        (((prepare_test 1 [[[(1 : ℚ)/2]]] [[0]]).image.getD ch []).getD i []).getD j 0 =
          (((fit2 (zeroPix [[[(1 : ℚ)/2]]]) 1 [[[(1 : ℚ)/2]]]).getD i []).getD j []).getD ch 0)
    ∧ ((∀ row ∈ [[[(1 : ℚ)/2]]], ∀ px ∈ row, ∀ x ∈ px, 0 ≤ x ∧ x ≤ 1) →
        ∀ plane ∈ (prepare_test 1 [[[(1 : ℚ)/2]]] [[0]]).image,
          ∀ row ∈ plane, ∀ x ∈ row, 0 ≤ x ∧ x ≤ 1) :=
  test_image_pointwise_spec 1 [[[(1 : ℚ)/2]]] [[0]] (by decide) (by decide)

end MriDataset
